import Mathlib

/-!
Verification development for the multiphase `phaseSystem` core
(`applications/solvers/multiphase/reactingEulerFoam/phaseSystems/phaseSystem/phaseSystem.C`).

Spatial fields (`volScalarField` and friends) are embedded as functions
`Loc → ℚ` over an abstract location type `Loc`, with pointwise arithmetic.
Phase models and the orchestrating phase system are embedded as structures;
stateful member functions become explicit state-passing functions, and the
opaque per-phase hooks they drive are passed in as function parameters.
Fallible accesses (out-of-bounds indexing, lookup of an unknown phase name,
division whose denominator vanishes somewhere) are embedded as `Option`.
-/

set_option autoImplicit false

namespace Foam

/-- Modelled from the spec: `phasePairKey` (the class lives outside the file
under verification; only its use sites are in `phaseSystem.C`).  An ordered or
unordered 2-tuple of phase names; `ordered` marks directional pairs. -/
structure phasePairKey where
  first : String
  second : String
  ordered : Bool
deriving DecidableEq, Repr

/-- Modelled from the spec: key equality for the pair-indexed hash tables.
Ordered keys compare componentwise in order; unordered keys compare up to
swapping the two names; an ordered and an unordered key are never equal. -/
def phasePairKey.keyEq (a b : phasePairKey) : Bool :=
  (a.ordered == b.ordered)
    && (if a.ordered then a.first == b.first && a.second == b.second
        else (a.first == b.first && a.second == b.second)
          || (a.first == b.second && a.second == b.first))

/-- A `phasePair` / `orderedPhasePair` as registered by `generatePairs`: the
two constituent phase names, the directionality flag (distinguishing the
`orderedPhasePair` subclass), and `allocId`, a serial number modelling the
allocation identity (the pointer) of the instance so that identity stability
can be stated. -/
structure phasePair where
  phase1 : String
  phase2 : String
  ordered : Bool
  allocId : Nat
deriving DecidableEq, Repr

/-- Lookup in a pair-keyed table (`HashTable` keyed by `phasePairKey`),
embedded as an association list searched with `phasePairKey.keyEq`. -/
def tableFind {α : Type} : List (phasePairKey × α) → phasePairKey → Option α
  | [], _ => none
  | (k, v) :: rest, key => if phasePairKey.keyEq k key then some v else tableFind rest key

/-- `HashTable::found`. -/
def tableFound {α : Type} (tbl : List (phasePairKey × α)) (key : phasePairKey) : Bool :=
  (tableFind tbl key).isSome

/-- The `phasePairs_` registry together with the next free allocation serial
number (modelling the heap pointer handed out by the next `new`). -/
structure pairRegistry where
  entries : List (phasePairKey × phasePair)
  nextId : Nat
deriving DecidableEq, Repr

/-- One iteration of `phaseSystem::generatePairs`: if the key is already
present do nothing, otherwise allocate a new `orderedPhasePair` (for ordered
keys) or `phasePair` (for unordered keys) and insert it under the key. -/
def pairRegistry.ensurePair (st : pairRegistry) (key : phasePairKey) : pairRegistry :=
  if tableFound st.entries key then st
  else if key.ordered then
    { entries := st.entries ++ [(key, ⟨key.first, key.second, true, st.nextId⟩)],
      nextId := st.nextId + 1 }
  else
    { entries := st.entries ++ [(key, ⟨key.first, key.second, false, st.nextId⟩)],
      nextId := st.nextId + 1 }

/-- `phaseSystem::generatePairs`: iterate `ensurePair` over the keys of the
model dictionary table. -/
def generatePairs (st : pairRegistry) (modelDicts : List phasePairKey) : pairRegistry :=
  modelDicts.foldl pairRegistry.ensurePair st

/-- The registry holds at most one pair per distinct key: no two entries have
equal keys (under the hash-table key equality). -/
def registryConsistent (st : pairRegistry) : Prop :=
  st.entries.Pairwise (fun e1 e2 => phasePairKey.keyEq e1.1 e2.1 = false)

lemma tableFound_false_forall {α : Type} :
    ∀ (tbl : List (phasePairKey × α)) (key : phasePairKey),
      tableFound tbl key = false → ∀ e ∈ tbl, phasePairKey.keyEq e.1 key = false
  | [], _, _ => by intro e he; cases he
  | (k, v) :: rest, key, h => by
    intro e he
    rw [tableFound, tableFind] at h
    by_cases hk : phasePairKey.keyEq k key
    · simp [hk] at h
    · rcases List.mem_cons.mp he with he' | he'
      · subst he'; exact Bool.of_not_eq_true hk
      · exact tableFound_false_forall rest key (by simpa [tableFound, hk] using h) e he'

lemma ensurePair_consistent (st : pairRegistry) (key : phasePairKey)
    (h : registryConsistent st) : registryConsistent (st.ensurePair key) := by
  rw [pairRegistry.ensurePair]
  by_cases hf : tableFound st.entries key
  · simpa [hf] using h
  · have hall := tableFound_false_forall st.entries key (Bool.of_not_eq_true hf)
    by_cases ho : key.ordered <;>
      simp only [hf, ho, if_true, if_false, Bool.false_eq_true, if_neg, reduceIte] <;>
      · rw [registryConsistent, List.pairwise_append]
        refine ⟨h, List.pairwise_singleton _ _, ?_⟩
        intro e he e2 he2
        rcases List.mem_singleton.mp he2 with rfl
        exact hall e he

lemma generatePairs_consistent (ks : List phasePairKey) :
    ∀ (st : pairRegistry), registryConsistent st → registryConsistent (generatePairs st ks) := by
  induction ks with
  | nil => intro st h; simpa [generatePairs] using h
  | cons k rest ih =>
    intro st h
    rw [generatePairs, List.foldl_cons]
    exact ih (st.ensurePair k) (ensurePair_consistent st k h)

lemma keyEq_swap_right (k : phasePairKey) (a b : String) :
    phasePairKey.keyEq k ⟨a, b, false⟩ = phasePairKey.keyEq k ⟨b, a, false⟩ := by
  obtain ⟨f, s, o⟩ := k
  cases o <;> simp [phasePairKey.keyEq, Bool.or_comm]

lemma tableFind_swap_right {α : Type} :
    ∀ (tbl : List (phasePairKey × α)) (a b : String),
      tableFind tbl ⟨a, b, false⟩ = tableFind tbl ⟨b, a, false⟩
  | [], _, _ => rfl
  | (k, v) :: rest, a, b => by
    rw [tableFind, tableFind, keyEq_swap_right k a b, tableFind_swap_right rest a b]

/-- Claim C1: `generatePairs` (the pair-registry ensure operation) is
idempotent — a key already present leaves the registry (entries and
allocation counter) unchanged, so the existing `phasePair` instance stays the
registered one; across any sequence of `generatePairs` calls a consistent
registry stays consistent (at most one pair per distinct key); and an
unordered key equals its swap and routes to the same registered pair
instance. -/
theorem claim_C1_generatePairs_idempotent
    (st : pairRegistry) (ks : List phasePairKey) (key : phasePairKey) (a b : String)
    (hfound : tableFound st.entries key = true)
    (hcons : registryConsistent st) :
    st.ensurePair key = st
    ∧ registryConsistent (generatePairs st ks)
    ∧ phasePairKey.keyEq ⟨a, b, false⟩ ⟨b, a, false⟩ = true
    ∧ tableFind st.entries ⟨a, b, false⟩ = tableFind st.entries ⟨b, a, false⟩ := by
  refine ⟨?_, generatePairs_consistent ks st hcons, ?_, tableFind_swap_right st.entries a b⟩
  · rw [pairRegistry.ensurePair, if_pos hfound]
  · simp [phasePairKey.keyEq]

/-- A concrete registry holding the unordered air–water pair. -/
def demoRegistry : pairRegistry :=
  ⟨[(⟨"air", "water", false⟩, ⟨"air", "water", false, 0⟩)], 1⟩

/-- Witness for C1 at a concrete registry: the swapped key `water–air` is
found, a redundant ensure is a no-op, a further generation pass keeps the
registry consistent, and both orientations of the key look up the same
registered pair. -/
theorem claim_C1_witness :
    tableFound demoRegistry.entries ⟨"water", "air", false⟩ = true
    ∧ registryConsistent demoRegistry
    ∧ (demoRegistry.ensurePair ⟨"water", "air", false⟩ = demoRegistry
       ∧ registryConsistent
           (generatePairs demoRegistry [⟨"water", "air", false⟩, ⟨"air", "steam", true⟩])
       ∧ phasePairKey.keyEq ⟨"air", "water", false⟩ ⟨"water", "air", false⟩ = true
       ∧ tableFind demoRegistry.entries ⟨"air", "water", false⟩
           = tableFind demoRegistry.entries ⟨"water", "air", false⟩) :=
  ⟨by decide, by rw [registryConsistent]; exact List.pairwise_singleton _ _,
    claim_C1_generatePairs_idempotent demoRegistry
      [⟨"water", "air", false⟩, ⟨"air", "steam", true⟩] ⟨"water", "air", false⟩
      "air" "water" (by decide)
      (by rw [registryConsistent]; exact List.pairwise_singleton _ _)⟩

/-- A `phaseModel` as seen by `phaseSystem.C`: identity, ordinal index,
classification flags, the fraction field `alpha` (in OpenFOAM the phase
object itself *is* its fraction field, so `movingPhaseModels_[i]` used in
field arithmetic denotes `alpha`), density and velocity fields, and the two
thermo accessors the orchestrator consults (`thermo().dpdt()` and
`thermo().p()`). -/
structure phaseModel (Loc : Type) where
  name : String
  index : Nat
  stationary : Bool
  isothermal : Bool
  pure : Bool
  incompressible : Bool
  alpha : Loc → ℚ
  rho : Loc → ℚ
  U : Loc → Fin 3 → ℚ
  thermoDpdt : Bool
  thermoP : Loc → ℚ

/-- The `phaseSystem` state used by the member functions under study: the
ordered phase list, the pair registry, the two pair-keyed sub-model tables
(each stored model embedded as the field its `sigma()` / `E()` call would
return), and the shared pressure-time-derivative field `dpdt_`. -/
structure phaseSystem (Loc : Type) where
  phaseModels : List (phaseModel Loc)
  phasePairs : List (phasePairKey × phasePair)
  surfaceTensionModels : List (phasePairKey × (Loc → ℚ))
  aspectRatioModels : List (phasePairKey × (Loc → ℚ))
  dpdt : Loc → ℚ

variable {Loc : Type}

/-- `movingPhaseModels_`: the constructor's grouping pass keeps, in phase-list
order, exactly the phases with `!phase.stationary()`. -/
def phaseSystem.movingPhaseModels (s : phaseSystem Loc) : List (phaseModel Loc) :=
  s.phaseModels.filter (fun phase => !phase.stationary)

/-- `stationaryPhaseModels_`: the phases with `phase.stationary()`, in order. -/
def phaseSystem.stationaryPhaseModels (s : phaseSystem Loc) : List (phaseModel Loc) :=
  s.phaseModels.filter (fun phase => phase.stationary)

/-- The local `sumAlphaMoving` field of `phaseSystem::rho` / `::U`: seeded
from the first moving phase's fraction, then incremented by the remaining
moving fractions.  (The `[]` case is unreachable on the source's code path,
which has already indexed `movingPhaseModels_[0]`.) -/
def phaseSystem.sumAlphaMoving (s : phaseSystem Loc) : Loc → ℚ :=
  match s.movingPhaseModels with
  | [] => 0
  | m0 :: rest => rest.foldl (fun acc phase => acc + phase.alpha) m0.alpha

/-- `phaseSystem::rho`: seed `alpha*rho` from moving phase 0, add the other
moving phases, return directly when there are no stationary phases, and
otherwise renormalize by `sumAlphaMoving`.  The unguarded
`movingPhaseModels_[0]` access is embedded as `none` on an empty moving list,
and the unguarded division is embedded as `none` when the denominator
vanishes at some location (where the source would produce non-finite
values). -/
def phaseSystem.rho [Fintype Loc] (s : phaseSystem Loc) : Option (Loc → ℚ) :=
  match s.movingPhaseModels with
  | [] => none
  | m0 :: rest =>
    let mix := rest.foldl (fun acc phase => acc + phase.alpha * phase.rho)
      (m0.alpha * m0.rho)
    if s.stationaryPhaseModels.isEmpty then some mix
    else
      let sam := rest.foldl (fun acc phase => acc + phase.alpha) m0.alpha
      if ∃ x, sam x = 0 then none else some (mix / sam)

/-- `phaseSystem::U`: same structure as `rho`, over the vector field
`alpha*U`. -/
def phaseSystem.U [Fintype Loc] (s : phaseSystem Loc) : Option (Loc → Fin 3 → ℚ) :=
  match s.movingPhaseModels with
  | [] => none
  | m0 :: rest =>
    let mix := rest.foldl
      (fun acc phase => acc + fun x i => phase.alpha x * phase.U x i)
      (fun x i => m0.alpha x * m0.U x i)
    if s.stationaryPhaseModels.isEmpty then some mix
    else
      let sam := rest.foldl (fun acc phase => acc + phase.alpha) m0.alpha
      if ∃ x, sam x = 0 then none else some (fun x i => mix x i / sam x)

/-- `phaseSystem::E`: delegate to the aspect-ratio model registered for the
key, else the dimensionless constant-1 field. -/
def phaseSystem.E (s : phaseSystem Loc) (key : phasePairKey) : Loc → ℚ :=
  match tableFind s.aspectRatioModels key with
  | some model => model
  | none => 1

/-- `phaseSystem::sigma`: delegate to the surface-tension model registered
for the key, else the constant-0 field. -/
def phaseSystem.sigma (s : phaseSystem Loc) (key : phasePairKey) : Loc → ℚ :=
  match tableFind s.surfaceTensionModels key with
  | some model => model
  | none => 0

/-- Lookup of `phaseModels_[name]` (the phase list is a `PtrListDictionary`
addressed by phase name); an unknown name is a fatal lookup error, embedded
as `none`. -/
def phaseSystem.findPhase (s : phaseSystem Loc) (name : String) : Option (phaseModel Loc) :=
  s.phaseModels.find? (fun phase => phase.name == name)

/-- `phaseSystem::dmdtf`: construct the transient `phasePair` from the two
phases the key names (failing on an unknown phase name) and return the
zero-valued placeholder field. -/
def phaseSystem.dmdtf (s : phaseSystem Loc) (key : phasePairKey) : Option (Loc → ℚ) :=
  match s.findPhase key.first, s.findPhase key.second with
  | some _, some _ => some 0
  | _, _ => none

/-- `phaseSystem::dmdts`: a `PtrList` of length `phaseModels_.size()` with no
slot set; an unset slot is embedded as `none`. -/
def phaseSystem.dmdts (s : phaseSystem Loc) : List (Option (Loc → ℚ)) :=
  List.replicate s.phaseModels.length none

/-- The loop of `phaseSystem::incompressible`: return `false` at the first
phase reporting compressible, `true` past the end. -/
def incompressibleLoop : List (phaseModel Loc) → Bool
  | [] => true
  | phase :: rest => if !phase.incompressible then false else incompressibleLoop rest

/-- `phaseSystem::incompressible`. -/
def phaseSystem.incompressible (s : phaseSystem Loc) : Bool :=
  incompressibleLoop s.phaseModels

/-- Observable events of one `correctKinematics` call: invocation of a
phase's own `correctKinematics()` hook, and the single conditional write of
the shared `dpdt_` field. -/
inductive KinEvent where
  | hookCall (name : String)
  | dpdtUpdate
deriving DecidableEq, Repr

/-- `phaseSystem::correctKinematics`: invoke every phase's hook in phase-list
order while or-accumulating `thermo().dpdt()` of the (hooked, i.e. mutated
in place) phases, then — only if some phase requested it — recompute `dpdt_`
once from the first phase's pressure.  The opaque per-phase hook and the
`fvc::ddt` operator of the numeric substrate are passed in as functions; the
call returns the new system state and its event trace. -/
def phaseSystem.correctKinematics (s : phaseSystem Loc)
    (hook : phaseModel Loc → phaseModel Loc) (ddt : (Loc → ℚ) → Loc → ℚ) :
    phaseSystem Loc × List KinEvent :=
  let loop := s.phaseModels.foldl
    (fun acc phase =>
      let hooked := hook phase
      (acc.1 ++ [hooked], acc.2.1 || hooked.thermoDpdt,
        acc.2.2 ++ [KinEvent.hookCall phase.name]))
    ([], false, [])
  let newPhases := loop.1
  let updateDpdt := loop.2.1
  let events := loop.2.2
  if updateDpdt then
    match newPhases with
    | [] => ({ s with phaseModels := newPhases }, events)
    | p0 :: _ =>
      ({ s with phaseModels := newPhases, dpdt := ddt p0.thermoP },
        events ++ [KinEvent.dpdtUpdate])
  else ({ s with phaseModels := newPhases }, events)

/-- `phaseSystem::correctContinuityError`: for each moving phase in order,
build the `source` field — zero-initialized, then `+=` the fvOptions
contribution when fvOptions applies to that phase's density field, then `+=`
the `dmdts` slot at the phase's index when that slot is set — and hand it to
the phase's own `correctContinuityError` hook.  The virtual `this->dmdts()`
result and the fvOptions queries are passed in as parameters; the embedding
returns the trace of hook invocations as (phase name, handed source)
pairs. -/
def phaseSystem.correctContinuityError (s : phaseSystem Loc)
    (dmdts : List (Option (Loc → ℚ))) (applies : phaseModel Loc → Bool)
    (fvSource : phaseModel Loc → Loc → ℚ) : List (String × (Loc → ℚ)) :=
  s.movingPhaseModels.foldl
    (fun events phase =>
      let source : Loc → ℚ := 0
      let source1 := if applies phase then source + fvSource phase else source
      let source2 :=
        match dmdts.getD phase.index none with
        | some f => source1 + f
        | none => source1
      events ++ [(phase.name, source2)])
    []

lemma alphaFold_eq (rest : List (phaseModel Loc)) (init : Loc → ℚ) :
    rest.foldl (fun acc phase => acc + phase.alpha) init
      = init + (rest.map (fun phase => phase.alpha)).sum := by
  induction rest generalizing init with
  | nil => simp
  | cons hd tl ih => simp [ih, add_assoc]

lemma rhoFold_eq (rest : List (phaseModel Loc)) (init : Loc → ℚ) :
    rest.foldl (fun acc phase => acc + phase.alpha * phase.rho) init
      = init + (rest.map (fun phase => phase.alpha * phase.rho)).sum := by
  induction rest generalizing init with
  | nil => simp
  | cons hd tl ih => simp [ih, add_assoc]

lemma movingAll_of_noStationary (s : phaseSystem Loc)
    (hstat : s.stationaryPhaseModels = []) : s.movingPhaseModels = s.phaseModels := by
  rw [phaseSystem.movingPhaseModels, List.filter_eq_self]
  intro p hp
  have := List.filter_eq_nil_iff.mp hstat p hp
  simp_all

lemma sumAlphaMoving_cons (s : phaseSystem Loc) (m0 : phaseModel Loc)
    (rest : List (phaseModel Loc)) (hm : s.movingPhaseModels = m0 :: rest) :
    s.sumAlphaMoving = ((m0 :: rest).map (fun phase => phase.alpha)).sum := by
  unfold phaseSystem.sumAlphaMoving
  rw [hm]
  simp [alphaFold_eq]

/-- Claim C2: with no stationary phases and phase fractions summing to 1
everywhere, `rho()` is exactly the fraction-weighted sum of the moving-phase
densities, with no renormalization. -/
theorem claim_C2_rho_noStationary [Fintype Loc] [Nonempty Loc]
    (s : phaseSystem Loc)
    (hstat : s.stationaryPhaseModels = [])
    (hsum : ∀ x, (s.phaseModels.map (fun phase => phase.alpha x)).sum = 1) :
    s.rho = some ((s.movingPhaseModels.map (fun phase => phase.alpha * phase.rho)).sum) := by
  have hne : s.phaseModels ≠ [] := by
    intro h0
    have h1 := hsum (Classical.arbitrary Loc)
    rw [h0] at h1
    simp at h1
  have hmovall := movingAll_of_noStationary s hstat
  have hmne : s.movingPhaseModels ≠ [] := by rw [hmovall]; exact hne
  obtain ⟨m0, rest, hm⟩ := List.exists_cons_of_ne_nil hmne
  have hemp : s.stationaryPhaseModels.isEmpty = true := by rw [hstat]; rfl
  unfold phaseSystem.rho
  rw [hm]
  simp [hemp, rhoFold_eq]

/-- Claim C3: with stationary phases present (and the renormalization
denominator nonzero everywhere, as the degenerate-normalization precondition
demands), `rho()` is the moving-phase fraction-weighted density sum divided
pointwise by `sumAlphaMoving`. -/
theorem claim_C3_rho_renormalized [Fintype Loc]
    (s : phaseSystem Loc)
    (hstat : s.stationaryPhaseModels ≠ [])
    (hmov : s.movingPhaseModels ≠ [])
    (hnz : ∀ x, s.sumAlphaMoving x ≠ 0) :
    s.rho = some ((s.movingPhaseModels.map (fun phase => phase.alpha * phase.rho)).sum
      / s.sumAlphaMoving) := by
  obtain ⟨m0, rest, hm⟩ := List.exists_cons_of_ne_nil hmov
  have hemp : s.stationaryPhaseModels.isEmpty = false := by
    cases h : s.stationaryPhaseModels with
    | nil => exact absurd h hstat
    | cons a l => rfl
  have hsam := sumAlphaMoving_cons s m0 rest hm
  have hnex : ¬∃ x, (rest.foldl (fun acc phase => acc + phase.alpha) m0.alpha) x = 0 := by
    rintro ⟨x, hx⟩
    apply hnz x
    rw [hsam]
    rw [alphaFold_eq] at hx
    simpa using hx
  unfold phaseSystem.rho
  rw [hm]
  simp only [hemp, Bool.false_eq_true, if_false, hnex, if_neg, not_false_iff, List.isEmpty_cons]
  rw [rhoFold_eq, alphaFold_eq, hsam]
  simp

/-- A moving water phase with fraction 0.3 and density 1000. -/
def demoWater : phaseModel Unit :=
  { name := "water", index := 0, stationary := false, isothermal := true,
    pure := true, incompressible := true, alpha := fun _ => 3/10,
    rho := fun _ => 1000, U := fun _ _ => 0, thermoDpdt := false,
    thermoP := fun _ => 0 }

/-- A moving air phase with fraction 0.7 and density 1.2. -/
def demoAir : phaseModel Unit :=
  { name := "air", index := 1, stationary := false, isothermal := true,
    pure := true, incompressible := false, alpha := fun _ => 7/10,
    rho := fun _ => 6/5, U := fun _ _ => 0, thermoDpdt := false,
    thermoP := fun _ => 0 }

/-- Two moving phases, no stationary phase: the spec's 0.3/0.7 example. -/
def demoTwoMoving : phaseSystem Unit :=
  { phaseModels := [demoWater, demoAir], phasePairs := [],
    surfaceTensionModels := [], aspectRatioModels := [], dpdt := fun _ => 0 }

/-- Witness for C2: fractions 0.3/0.7 with densities 1000/1.2 give mixture
density 0.3·1000 + 0.7·1.2 = 7521/25 everywhere. -/
theorem claim_C2_witness :
    demoTwoMoving.stationaryPhaseModels = []
    ∧ (∀ x, (demoTwoMoving.phaseModels.map (fun phase => phase.alpha x)).sum = 1)
    ∧ demoTwoMoving.rho = some (fun _ => 7521/25) := by
  have hsum : ∀ x, (demoTwoMoving.phaseModels.map (fun phase => phase.alpha x)).sum = 1 := by
    intro x
    simp [demoTwoMoving, demoWater, demoAir]
    norm_num
  refine ⟨rfl, hsum, ?_⟩
  rw [claim_C2_rho_noStationary demoTwoMoving rfl hsum]
  have h1 : (demoTwoMoving.movingPhaseModels.map (fun phase => phase.alpha * phase.rho)).sum
      = demoWater.alpha * demoWater.rho + (demoAir.alpha * demoAir.rho + 0) := by
    have hmov : demoTwoMoving.movingPhaseModels = [demoWater, demoAir] := rfl
    rw [hmov]
    simp only [List.map_cons, List.map_nil, List.sum_cons, List.sum_nil]
  have h2 : demoWater.alpha * demoWater.rho + (demoAir.alpha * demoAir.rho + 0)
      = (fun _ => (7521 : ℚ)/25) := by
    funext x
    simp only [Pi.add_apply, Pi.mul_apply, Pi.zero_apply, demoWater, demoAir]
    norm_num
  rw [h1, h2]

/-- A moving liquid phase with fraction 0.6 and density 1000. -/
def demoLiquid : phaseModel Unit :=
  { name := "liquid", index := 0, stationary := false, isothermal := true,
    pure := true, incompressible := true, alpha := fun _ => 3/5,
    rho := fun _ => 1000, U := fun _ _ => 0, thermoDpdt := false,
    thermoP := fun _ => 0 }

/-- A stationary solid phase with fraction 0.4. -/
def demoSolid : phaseModel Unit :=
  { name := "solid", index := 1, stationary := true, isothermal := true,
    pure := true, incompressible := true, alpha := fun _ => 2/5,
    rho := fun _ => 2000, U := fun _ _ => 0, thermoDpdt := false,
    thermoP := fun _ => 0 }

/-- One moving and one stationary phase: the spec's 0.6/0.4 example. -/
def demoMovingStationary : phaseSystem Unit :=
  { phaseModels := [demoLiquid, demoSolid], phasePairs := [],
    surfaceTensionModels := [], aspectRatioModels := [], dpdt := fun _ => 0 }

/-- Witness for C3: with moving fraction 0.6 at density 1000 and a 0.4
stationary phase, the renormalized mixture density is 1000 everywhere — the
stationary phase does not dilute the moving-phase average. -/
theorem claim_C3_witness :
    demoMovingStationary.stationaryPhaseModels ≠ []
    ∧ demoMovingStationary.movingPhaseModels ≠ []
    ∧ (∀ x, demoMovingStationary.sumAlphaMoving x ≠ 0)
    ∧ demoMovingStationary.rho = some (fun _ => 1000) := by
  have hmov : demoMovingStationary.movingPhaseModels = [demoLiquid] := rfl
  have hst : demoMovingStationary.stationaryPhaseModels = [demoSolid] := rfl
  have hstne : demoMovingStationary.stationaryPhaseModels ≠ [] := by
    rw [hst]; exact List.cons_ne_nil _ _
  have hmovne : demoMovingStationary.movingPhaseModels ≠ [] := by
    rw [hmov]; exact List.cons_ne_nil _ _
  have hsam : demoMovingStationary.sumAlphaMoving = demoLiquid.alpha := by
    rw [sumAlphaMoving_cons demoMovingStationary demoLiquid [] hmov]
    simp only [List.map_cons, List.map_nil, List.sum_cons, List.sum_nil, add_zero]
  have hnz : ∀ x, demoMovingStationary.sumAlphaMoving x ≠ 0 := by
    intro x
    rw [hsam]
    simp only [demoLiquid]
    norm_num
  refine ⟨hstne, hmovne, hnz, ?_⟩
  rw [claim_C3_rho_renormalized demoMovingStationary hstne hmovne hnz]
  have h1 : (demoMovingStationary.movingPhaseModels.map
        (fun phase => phase.alpha * phase.rho)).sum
      = demoLiquid.alpha * demoLiquid.rho + 0 := by
    rw [hmov]
    simp only [List.map_cons, List.map_nil, List.sum_cons, List.sum_nil]
  rw [h1, hsam]
  have h3 : (demoLiquid.alpha * demoLiquid.rho + 0) / demoLiquid.alpha
      = (fun _ : Unit => (1000 : ℚ)) := by
    funext x
    simp only [Pi.div_apply, Pi.add_apply, Pi.mul_apply, Pi.zero_apply, demoLiquid]
    norm_num
  rw [h3]

/-- Claim C7: `rho()` and `U()` index the moving-phase list at 0 and divide
by `sumAlphaMoving` with no guard, so the embedded functions succeed exactly
when the moving-phase list is non-empty and — whenever stationary phases
exist — the moving fractions have nonzero sum at every location. -/
theorem claim_C7_rho_U_preconditions [Fintype Loc] (s : phaseSystem Loc) :
    (s.rho.isSome = true ∧ s.U.isSome = true)
      ↔ (s.movingPhaseModels ≠ []
         ∧ (s.stationaryPhaseModels ≠ [] → ∀ x, s.sumAlphaMoving x ≠ 0)) := by
  cases hm : s.movingPhaseModels with
  | nil =>
    unfold phaseSystem.rho phaseSystem.U
    rw [hm]
    simp
  | cons m0 rest =>
    unfold phaseSystem.rho phaseSystem.U
    rw [hm]
    have hsam := sumAlphaMoving_cons s m0 rest hm
    cases hemp : s.stationaryPhaseModels.isEmpty with
    | true =>
      have hstat : s.stationaryPhaseModels = [] := by
        cases h : s.stationaryPhaseModels with
        | nil => rfl
        | cons a l => rw [h] at hemp; simp at hemp
      simp [hstat]
    | false =>
      have hstat : s.stationaryPhaseModels ≠ [] := by
        intro h0
        rw [h0] at hemp
        simp at hemp
      by_cases hex : ∃ x, (rest.foldl (fun acc phase => acc + phase.alpha) m0.alpha) x = 0
      · obtain ⟨x, hx⟩ := hex
        have hzero : s.sumAlphaMoving x = 0 := by
          rw [hsam]
          rw [alphaFold_eq] at hx
          simpa using hx
        simp only [hemp, Bool.false_eq_true, if_false]
        rw [if_pos ⟨x, hx⟩, if_pos ⟨x, hx⟩]
        simp only [Option.isSome_none, Bool.false_eq_true, false_and, false_iff]
        rintro ⟨-, h2⟩
        exact h2 hstat x hzero
      · simp only [hemp, Bool.false_eq_true, if_false]
        rw [if_neg hex, if_neg hex]
        simp only [Option.isSome_some, and_self, true_iff, true_and]
        refine ⟨by simp, fun _ x hx0 => ?_⟩
        apply hex
        refine ⟨x, ?_⟩
        rw [alphaFold_eq]
        rw [hsam] at hx0
        simpa using hx0

/-- Claim C4: `sigma(key)` and `E(key)` delegate to the registered model when
the table has one for the key, and otherwise return the constant default
field (surface tension 0, aspect ratio 1) with no error. -/
theorem claim_C4_sigma_E_defaults (s : phaseSystem Loc) (key : phasePairKey) :
    (tableFind s.surfaceTensionModels key = none → ∀ x, s.sigma key x = 0)
    ∧ (∀ model, tableFind s.surfaceTensionModels key = some model → s.sigma key = model)
    ∧ (tableFind s.aspectRatioModels key = none → ∀ x, s.E key x = 1)
    ∧ (∀ model, tableFind s.aspectRatioModels key = some model → s.E key = model) := by
  refine ⟨?_, ?_, ?_, ?_⟩
  · intro h x
    unfold phaseSystem.sigma
    rw [h]
    rfl
  · intro model h
    unfold phaseSystem.sigma
    rw [h]
  · intro h x
    unfold phaseSystem.E
    rw [h]
    rfl
  · intro model h
    unfold phaseSystem.E
    rw [h]

/-- An unordered demo key. -/
def demoKey : phasePairKey := ⟨"water", "air", false⟩

/-- A system whose surface-tension table is empty and whose aspect-ratio
table has one model (the constant-3 field) for the demo key. -/
def demoTables : phaseSystem Unit :=
  { phaseModels := [], phasePairs := [], surfaceTensionModels := [],
    aspectRatioModels := [(demoKey, fun _ => 3)], dpdt := fun _ => 0 }

/-- Witness for C4: with no surface-tension model configured, `sigma` is 0
everywhere; the configured aspect-ratio model is delegated to. -/
theorem claim_C4_witness :
    (∀ x, demoTables.sigma demoKey x = 0)
    ∧ demoTables.E demoKey = (fun _ => 3) :=
  ⟨(claim_C4_sigma_E_defaults demoTables demoKey).1 rfl,
    (claim_C4_sigma_E_defaults demoTables demoKey).2.2.2 (fun _ => 3) rfl⟩

lemma incompressibleLoop_iff :
    ∀ l : List (phaseModel Loc),
      incompressibleLoop l = true ↔ ∀ phase ∈ l, phase.incompressible = true
  | [] => by simp [incompressibleLoop]
  | p :: rest => by
    rw [incompressibleLoop]
    cases hp : p.incompressible <;>
      simp [hp, incompressibleLoop_iff rest]

/-- Claim C8: `incompressible()` is true iff every phase reports
incompressible; one compressible phase makes it false. -/
theorem claim_C8_incompressible (s : phaseSystem Loc) :
    s.incompressible = true ↔ ∀ phase ∈ s.phaseModels, phase.incompressible = true := by
  unfold phaseSystem.incompressible
  exact incompressibleLoop_iff s.phaseModels

lemma getD_replicate_none {α : Type} :
    ∀ (n i : Nat), (List.replicate n (none : Option α)).getD i none = none
  | 0, 0 => rfl
  | 0, _ + 1 => rfl
  | _ + 1, 0 => rfl
  | n + 1, i + 1 => getD_replicate_none n i

/-- Claim C9: the default mass-transfer accessors are zero-valued
placeholders — for a key naming two phases of the system `dmdtf` is the zero
field, and `dmdts` has one slot per phase with no slot set. -/
theorem claim_C9_dmdt_placeholders (s : phaseSystem Loc) (key : phasePairKey)
    (h1 : (s.findPhase key.first).isSome = true)
    (h2 : (s.findPhase key.second).isSome = true) :
    s.dmdtf key = some 0
    ∧ s.dmdts.length = s.phaseModels.length
    ∧ ∀ i, s.dmdts.getD i none = none := by
  refine ⟨?_, by simp [phaseSystem.dmdts], fun i => getD_replicate_none _ i⟩
  obtain ⟨p1, hp1⟩ := Option.isSome_iff_exists.mp h1
  obtain ⟨p2, hp2⟩ := Option.isSome_iff_exists.mp h2
  unfold phaseSystem.dmdtf
  rw [hp1, hp2]

/-- Witness for C9 on the two-phase demo system. -/
theorem claim_C9_witness :
    (demoTwoMoving.findPhase "water").isSome = true
    ∧ (demoTwoMoving.findPhase "air").isSome = true
    ∧ (demoTwoMoving.dmdtf ⟨"water", "air", false⟩ = some 0
       ∧ demoTwoMoving.dmdts.length = demoTwoMoving.phaseModels.length
       ∧ ∀ i, demoTwoMoving.dmdts.getD i none = none) :=
  ⟨rfl, rfl, claim_C9_dmdt_placeholders demoTwoMoving ⟨"water", "air", false⟩ rfl rfl⟩

lemma correctKin_foldl (hook : phaseModel Loc → phaseModel Loc) :
    ∀ (l ps : List (phaseModel Loc)) (b : Bool) (tr : List KinEvent),
      l.foldl
        (fun acc phase =>
          let hooked := hook phase
          (acc.1 ++ [hooked], acc.2.1 || hooked.thermoDpdt,
            acc.2.2 ++ [KinEvent.hookCall phase.name]))
        (ps, b, tr)
      = (ps ++ l.map hook, b || l.any (fun phase => (hook phase).thermoDpdt),
         tr ++ l.map (fun phase => KinEvent.hookCall phase.name))
  | [], ps, b, tr => by simp
  | hd :: tl, ps, b, tr => by
    rw [List.foldl_cons]
    rw [correctKin_foldl hook tl (ps ++ [hook hd]) (b || (hook hd).thermoDpdt)
      (tr ++ [KinEvent.hookCall hd.name])]
    simp [Bool.or_assoc]

lemma count_dpdt_hookCalls (l : List (phaseModel Loc)) :
    (l.map (fun phase => KinEvent.hookCall phase.name)).count KinEvent.dpdtUpdate = 0 := by
  rw [List.count_eq_zero]
  intro h
  obtain ⟨p, -, hp⟩ := List.mem_map.mp h
  cases hp

/-- Claim C5: `correctKinematics` invokes every phase hook in phase-list
order and recomputes the shared `dpdt` exactly once — from the first phase's
pressure — iff some phase requests a pressure-time-derivative update; never
more than once per call. -/
theorem claim_C5_correctKinematics (s : phaseSystem Loc)
    (hook : phaseModel Loc → phaseModel Loc) (ddt : (Loc → ℚ) → Loc → ℚ)
    (p0 : phaseModel Loc) (rest : List (phaseModel Loc))
    (h : s.phaseModels = p0 :: rest) :
    (s.correctKinematics hook ddt).2
        = s.phaseModels.map (fun phase => KinEvent.hookCall phase.name)
          ++ (if s.phaseModels.any (fun phase => (hook phase).thermoDpdt)
              then [KinEvent.dpdtUpdate] else [])
    ∧ ((s.correctKinematics hook ddt).2.count KinEvent.dpdtUpdate ≤ 1)
    ∧ (s.correctKinematics hook ddt).1.dpdt
        = (if s.phaseModels.any (fun phase => (hook phase).thermoDpdt)
           then ddt (hook p0).thermoP else s.dpdt) := by
  unfold phaseSystem.correctKinematics
  rw [correctKin_foldl]
  cases hany : s.phaseModels.any (fun phase => (hook phase).thermoDpdt) with
  | false =>
    simp only [hany, Bool.false_or, Bool.false_eq_true, if_false]
    refine ⟨by simp, ?_, by simp⟩
    simp [count_dpdt_hookCalls]
  | true =>
    simp only [hany, Bool.false_or, if_true, h, List.map_cons, List.nil_append]
    refine ⟨by simp, ?_, by simp⟩
    simp [List.count_append, count_dpdt_hookCalls]

/-- Claim C10: when no (hooked) phase's thermo requests a
pressure-time-derivative update, `correctKinematics` leaves the shared
`dpdt` field unchanged, while still invoking every phase's hook in order. -/
theorem claim_C10_correctKinematics_frame (s : phaseSystem Loc)
    (hook : phaseModel Loc → phaseModel Loc) (ddt : (Loc → ℚ) → Loc → ℚ)
    (h : ∀ phase ∈ s.phaseModels, (hook phase).thermoDpdt = false) :
    (s.correctKinematics hook ddt).1.dpdt = s.dpdt
    ∧ (s.correctKinematics hook ddt).2
        = s.phaseModels.map (fun phase => KinEvent.hookCall phase.name)
    ∧ (s.correctKinematics hook ddt).1.phaseModels = s.phaseModels.map hook := by
  have hany : s.phaseModels.any (fun phase => (hook phase).thermoDpdt) = false := by
    rw [List.any_eq_false]
    intro p hp
    simp [h p hp]
  unfold phaseSystem.correctKinematics
  rw [correctKin_foldl]
  simp [hany]

lemma correctCont_foldl (dmdts : List (Option (Loc → ℚ))) (applies : phaseModel Loc → Bool)
    (fvSource : phaseModel Loc → Loc → ℚ) :
    ∀ (l : List (phaseModel Loc)) (tr : List (String × (Loc → ℚ))),
      l.foldl
        (fun events phase =>
          let source : Loc → ℚ := 0
          let source1 := if applies phase then source + fvSource phase else source
          let source2 :=
            match dmdts.getD phase.index none with
            | some f => source1 + f
            | none => source1
          events ++ [(phase.name, source2)])
        tr
      = tr ++ l.map (fun phase =>
          (phase.name,
            (if applies phase then fvSource phase else 0)
              + (dmdts.getD phase.index none).elim 0 (fun f => f)))
  | [], tr => by simp
  | hd :: tl, tr => by
    rw [List.foldl_cons, correctCont_foldl dmdts applies fvSource tl _]
    cases hap : applies hd <;> cases hdm : dmdts[hd.index]?.getD none <;>
      simp [hap, hdm, List.getD]

/-- Claim C6: `correctContinuityError` hands, to each moving phase in order
(and to no other phase), the zero-initialized source plus — conditionally —
the applicable fvOptions contribution and the set `dmdts` slot at the
phase's index, unset slots being skipped. -/
theorem claim_C6_correctContinuityError (s : phaseSystem Loc)
    (dmdts : List (Option (Loc → ℚ))) (applies : phaseModel Loc → Bool)
    (fvSource : phaseModel Loc → Loc → ℚ) :
    s.correctContinuityError dmdts applies fvSource
      = s.movingPhaseModels.map (fun phase =>
          (phase.name,
            (if applies phase then fvSource phase else 0)
              + (dmdts.getD phase.index none).elim 0 (fun f => f))) := by
  unfold phaseSystem.correctContinuityError
  rw [correctCont_foldl]
  simp


/-- A phase not requesting a dpdt update, with pressure field 5. -/
def demoKinCold : phaseModel Unit :=
  { name := "a", index := 0, stationary := false, isothermal := true,
    pure := true, incompressible := true, alpha := fun _ => 1/2,
    rho := fun _ => 1, U := fun _ _ => 0, thermoDpdt := false,
    thermoP := fun _ => 5 }

/-- A phase requesting a dpdt update, with pressure field 7. -/
def demoKinHot : phaseModel Unit :=
  { name := "b", index := 1, stationary := false, isothermal := false,
    pure := true, incompressible := true, alpha := fun _ => 1/2,
    rho := fun _ => 1, U := fun _ _ => 0, thermoDpdt := true,
    thermoP := fun _ => 7 }

/-- A two-phase system in which the second phase requests a dpdt update. -/
def demoKinSys : phaseSystem Unit :=
  { phaseModels := [demoKinCold, demoKinHot], phasePairs := [],
    surfaceTensionModels := [], aspectRatioModels := [], dpdt := fun _ => 0 }

/-- Witness for C5 on the two-phase kinematics demo, with the identity hook
and the identity ddt operator. -/
theorem claim_C5_witness :
    demoKinSys.phaseModels = demoKinCold :: [demoKinHot]
    ∧ ((demoKinSys.correctKinematics id (fun f => f)).2
          = demoKinSys.phaseModels.map (fun phase => KinEvent.hookCall phase.name)
            ++ (if demoKinSys.phaseModels.any (fun phase => (id phase).thermoDpdt)
                then [KinEvent.dpdtUpdate] else [])
       ∧ ((demoKinSys.correctKinematics id (fun f => f)).2.count KinEvent.dpdtUpdate ≤ 1)
       ∧ (demoKinSys.correctKinematics id (fun f => f)).1.dpdt
          = (if demoKinSys.phaseModels.any (fun phase => (id phase).thermoDpdt)
             then (fun f => f) (id demoKinCold).thermoP else demoKinSys.dpdt)) :=
  ⟨rfl, claim_C5_correctKinematics demoKinSys id (fun f => f) demoKinCold [demoKinHot] rfl⟩

/-- Witness for C10 on the two-phase mixture demo, where no phase requests a
dpdt update. -/
theorem claim_C10_witness :
    (∀ phase ∈ demoTwoMoving.phaseModels, (id phase).thermoDpdt = false)
    ∧ ((demoTwoMoving.correctKinematics id (fun f => f)).1.dpdt = demoTwoMoving.dpdt
       ∧ (demoTwoMoving.correctKinematics id (fun f => f)).2
           = demoTwoMoving.phaseModels.map (fun phase => KinEvent.hookCall phase.name)
       ∧ (demoTwoMoving.correctKinematics id (fun f => f)).1.phaseModels
           = demoTwoMoving.phaseModels.map id) := by
  have h : ∀ phase ∈ demoTwoMoving.phaseModels, (id phase).thermoDpdt = false := by
    intro p hp
    simp only [demoTwoMoving] at hp
    rcases List.mem_cons.mp hp with rfl | hp2
    · rfl
    · rcases List.mem_cons.mp hp2 with rfl | hp3
      · rfl
      · cases hp3
  exact ⟨h, claim_C10_correctKinematics_frame demoTwoMoving id (fun f => f) h⟩

end Foam
